import Mathlib

/-
  Verification of the Carrivo-Assistant retrieval-and-grounding pipeline.

  The definitions below are a shallow embedding of the backend services:
  the grounding validator of src/backend/app/services/llm_service.py, the
  cosine-similarity and client-side vector search of embedding_service.py,
  the synonym-expanded fuzzy search of roadmap_service.py, the FAQ search of
  rag_service.py, the language detector of language_detector.py, and the
  conversation orchestration of chat_service.py.

  Texts are lists of characters.  Python regular expressions that occur in
  the code are specialized to the exact patterns used there and embedded as
  explicit character-list scanners.  Numeric scores computed with floats in
  the code are embedded over the rationals where the code only uses ring
  operations, and over the reals where Euclidean norms (square roots) occur.
-/

abbrev Text := List Char

/-- The whitespace class of Python regular expressions, restricted to the
ASCII whitespace characters (space, tab, newline, carriage return, vertical
tab, form feed). -/
def isSpaceChar (c : Char) : Bool :=
  c = ' ' || c = '\t' || c = '\n' || c = '\r' || c = '\x0b' || c = '\x0c'

/-- Characters matched by the class of the URL pattern
of llm_service.py (anything except whitespace and the three
delimiters). -/
def urlChar (c : Char) : Bool :=
  !(isSpaceChar c || c = '<' || c = '>' || c = '"')

/-- Length of the maximal leading run of URL-class characters
(the greedy one-or-more repetition of the URL pattern). -/
def takeUrlRun : Text → Nat
  | [] => 0
  | c :: cs => if urlChar c then takeUrlRun cs + 1 else 0

def httpsPre : Text := ['h', 't', 't', 'p', 's', ':', '/', '/']

def httpPre : Text := ['h', 't', 't', 'p', ':', '/', '/']

/-- The URL regular expression of llm_service.py anchored at the
head of the list: if the list begins with a URL-shaped substring, return
the length of the (leftmost-longest) match, else none. -/
def matchUrlLen (cs : Text) : Option Nat :=
  if cs.take 8 = httpsPre then
    if takeUrlRun (cs.drop 8) = 0 then none else some (8 + takeUrlRun (cs.drop 8))
  else if cs.take 7 = httpPre then
    if takeUrlRun (cs.drop 7) = 0 then none else some (7 + takeUrlRun (cs.drop 7))
  else none

theorem takeUrlRun_le (cs : Text) : takeUrlRun cs ≤ cs.length := by
  induction cs with
  | nil => simp [takeUrlRun]
  | cons c cs ih =>
    simp only [takeUrlRun, List.length_cons]
    split <;> omega

theorem matchUrlLen_bounds {cs : Text} {n : Nat} (h : matchUrlLen cs = some n) :
    8 ≤ n ∧ n ≤ cs.length := by
  unfold matchUrlLen at h
  split at h
  · next h8 =>
    have hlen : 8 ≤ cs.length := by
      have := congrArg List.length h8
      simp [httpsPre] at this
      omega
    have hrun := takeUrlRun_le (cs.drop 8)
    simp [List.length_drop] at hrun
    split at h
    · exact absurd h (by simp)
    · next hr =>
      have : 8 + takeUrlRun (cs.drop 8) = n := by injection h
      omega
  · split at h
    · next h7 =>
      have hlen : 7 ≤ cs.length := by
        have := congrArg List.length h7
        simp [httpPre] at this
        omega
      have hrun := takeUrlRun_le (cs.drop 7)
      simp [List.length_drop] at hrun
      split at h
      · exact absurd h (by simp)
      · next hr =>
        have : 7 + takeUrlRun (cs.drop 7) = n := by injection h
        have hr0 : takeUrlRun (cs.drop 7) ≠ 0 := hr
        omega
    · exact absurd h (by simp)

theorem matchUrlLen_drop_lt {cs : Text} {n : Nat} (h : matchUrlLen cs = some n) :
    (cs.drop n).length < cs.length := by
  have := matchUrlLen_bounds h
  simp [List.length_drop]
  omega

/-- Python re.sub of the URL pattern with a fixed replacement string,
structured over an explicit fuel argument (the scan consumes at least one
character per step, so any fuel at least the length of the text yields the
full left-to-right substitution of leftmost non-overlapping matches). -/
def subUrlsF (repl : Text) : Nat → Text → Text
  | _, [] => []
  | 0, _ :: _ => []
  | fuel + 1, c :: rest =>
    match matchUrlLen (c :: rest) with
    | some n => repl ++ subUrlsF repl fuel ((c :: rest).drop n)
    | none => c :: subUrlsF repl fuel rest

/-- Python re.sub of the URL pattern with a fixed replacement string:
scan left to right, replace each leftmost non-overlapping match. -/
def subUrls (repl : Text) (cs : Text) : Text :=
  subUrlsF repl cs.length cs

theorem subUrlsF_congr (repl : Text) :
    ∀ (f1 f2 : Nat) (cs : Text), cs.length ≤ f1 → cs.length ≤ f2 →
      subUrlsF repl f1 cs = subUrlsF repl f2 cs := by
  intro f1
  induction f1 with
  | zero =>
    intro f2 cs h1 _
    have : cs = [] := List.eq_nil_of_length_eq_zero (Nat.le_zero.mp h1)
    subst this
    cases f2 <;> rfl
  | succ g1 ih =>
    intro f2 cs h1 h2
    cases cs with
    | nil => cases f2 <;> rfl
    | cons c rest =>
      cases f2 with
      | zero => simp at h2
      | succ g2 =>
        simp only [subUrlsF]
        cases hm : matchUrlLen (c :: rest) with
        | some n =>
          have hb := matchUrlLen_bounds hm
          simp only [List.length_cons] at h1 h2 hb
          have hd : ((c :: rest).drop n).length ≤ g1 := by
            simp [List.length_drop]
            omega
          have hd2 : ((c :: rest).drop n).length ≤ g2 := by
            simp [List.length_drop]
            omega
          simp [ih g2 _ hd hd2]
        | none =>
          simp only [List.length_cons] at h1 h2
          simp [ih g2 rest (by omega) (by omega)]

/-- Python re.findall of the URL pattern, over an explicit fuel
argument. -/
def findUrlsF : Nat → Text → List Text
  | _, [] => []
  | 0, _ :: _ => []
  | fuel + 1, c :: rest =>
    match matchUrlLen (c :: rest) with
    | some n => (c :: rest).take n :: findUrlsF fuel ((c :: rest).drop n)
    | none => findUrlsF fuel rest

/-- Python re.findall of the URL pattern: the list of leftmost
non-overlapping URL-shaped substrings. -/
def findUrls (cs : Text) : List Text :=
  findUrlsF cs.length cs

theorem findUrlsF_congr :
    ∀ (f1 f2 : Nat) (cs : Text), cs.length ≤ f1 → cs.length ≤ f2 →
      findUrlsF f1 cs = findUrlsF f2 cs := by
  intro f1
  induction f1 with
  | zero =>
    intro f2 cs h1 _
    have : cs = [] := List.eq_nil_of_length_eq_zero (Nat.le_zero.mp h1)
    subst this
    cases f2 <;> rfl
  | succ g1 ih =>
    intro f2 cs h1 h2
    cases cs with
    | nil => cases f2 <;> rfl
    | cons c rest =>
      cases f2 with
      | zero => simp at h2
      | succ g2 =>
        simp only [findUrlsF]
        cases hm : matchUrlLen (c :: rest) with
        | some n =>
          have hb := matchUrlLen_bounds hm
          simp only [List.length_cons] at h1 h2 hb
          have hd : ((c :: rest).drop n).length ≤ g1 := by
            simp [List.length_drop]
            omega
          have hd2 : ((c :: rest).drop n).length ≤ g2 := by
            simp [List.length_drop]
            omega
          simp [ih g2 _ hd hd2]
        | none =>
          simp only [List.length_cons] at h1 h2
          simp [ih g2 rest (by omega) (by omega)]

/-- Whether some suffix of the list begins with a URL-shaped substring,
i.e. whether the URL pattern matches anywhere in the text. -/
def containsUrl : Text → Bool
  | [] => false
  | c :: cs => (matchUrlLen (c :: cs)).isSome || containsUrl cs

/-- The trailing-punctuation class stripped by the URL normalizer of
llm_service.py (period, comma, semicolon, colon, exclamation mark, closing
parenthesis). -/
def trailPunct (c : Char) : Bool :=
  c = '.' || c = ',' || c = ';' || c = ':' || c = '!' || c = ')'

/-- Remove the maximal trailing run of characters satisfying p. -/
def dropTrailWhile (p : Char → Bool) (cs : Text) : Text :=
  (cs.reverse.dropWhile p).reverse

/-- ASCII lowercasing, as applied by Python str.lower to the ASCII
characters occurring in URLs. -/
def lowerChar (c : Char) : Char := c.toLower

/-- normalize_url of llm_service.py: strip the trailing punctuation run,
then strip all trailing slashes, then lowercase. -/
def normalizeUrl (u : Text) : Text :=
  ((dropTrailWhile (fun c => c = '/') (dropTrailWhile trailPunct u)).map lowerChar)

/-- Python str.replace old new: replace every leftmost non-overlapping
occurrence of old.  (For an empty old Python would interleave new between
all characters; old is always a URL of length at least eight here, so that
case is modelled as the identity.) -/
def replaceAllF (old new : Text) : Nat → Text → Text
  | _, [] => []
  | 0, _ :: _ => []
  | fuel + 1, c :: rest =>
    if old ≠ [] ∧ old.isPrefixOf (c :: rest) then
      new ++ replaceAllF old new fuel ((c :: rest).drop old.length)
    else c :: replaceAllF old new fuel rest

def replaceAll (old new : Text) (s : Text) : Text :=
  replaceAllF old new s.length s

/-- The replacement text used when the grounding context is empty. -/
def placeholderEmptyCtx : Text := "[Link removed - not in database]".toList

/-- The replacement text used for a URL absent from the allow-list. -/
def placeholderNotInDb : Text := "[Link not available in database]".toList

/-- A grounding-context item, reduced to the list of its string-valued
field contents (the validator only ever scans those values for URLs). -/
abbrev CtxItem := List Text

/-- All URL-shaped substrings found in the string fields of the context
items (the allow-list before normalization).  The code collects them in a
set; only membership is ever used, so a list is an equivalent embedding. -/
def ctxUrls (context : List CtxItem) : List Text :=
  context.flatMap (fun item => item.flatMap findUrls)

/-- LLMService._validate_urls_against_context: with an empty context every
URL-shaped substring is replaced by the fixed placeholder; otherwise every
URL-shaped substring of the text whose normalized form is not in the
normalized allow-list is replaced by the fixed placeholder. -/
def validateUrlsAgainstContext (text : Text) (context : List CtxItem) : Text :=
  if context = [] then subUrls placeholderEmptyCtx text
  else
    let validUrls := ctxUrls context
    let responseUrls := findUrls text
    if responseUrls = [] then text
    else
      let normalizedValid := validUrls.map normalizeUrl
      responseUrls.foldl
        (fun acc url =>
          if normalizeUrl url ∈ normalizedValid then acc
          else replaceAll url placeholderNotInDb acc)
        text

theorem subUrls_nil (repl : Text) : subUrls repl [] = [] := rfl

theorem subUrls_some {cs : Text} {n : Nat} (repl : Text) (h : matchUrlLen cs = some n) :
    subUrls repl cs = repl ++ subUrls repl (cs.drop n) := by
  cases cs with
  | nil => simp [matchUrlLen, httpsPre, httpPre] at h
  | cons c rest =>
    unfold subUrls
    simp only [List.length_cons, subUrlsF, h]
    congr 1
    refine subUrlsF_congr repl _ _ _ ?_ le_rfl
    have := matchUrlLen_bounds h
    simp only [List.length_cons] at this
    simp [List.length_drop]
    omega

theorem subUrls_none_cons {c : Char} {rest : Text} (repl : Text)
    (h : matchUrlLen (c :: rest) = none) :
    subUrls repl (c :: rest) = c :: subUrls repl rest := by
  unfold subUrls
  simp only [List.length_cons, subUrlsF, h]

theorem findUrls_nil : findUrls [] = [] := rfl

theorem findUrls_some {cs : Text} {n : Nat} (h : matchUrlLen cs = some n) :
    findUrls cs = cs.take n :: findUrls (cs.drop n) := by
  cases cs with
  | nil => simp [matchUrlLen, httpsPre, httpPre] at h
  | cons c rest =>
    unfold findUrls
    simp only [List.length_cons, findUrlsF, h]
    congr 1
    refine findUrlsF_congr _ _ _ ?_ le_rfl
    have := matchUrlLen_bounds h
    simp only [List.length_cons] at this
    simp [List.length_drop]
    omega

theorem findUrls_none_cons {c : Char} {rest : Text} (h : matchUrlLen (c :: rest) = none) :
    findUrls (c :: rest) = findUrls rest := by
  unfold findUrls
  simp only [List.length_cons, findUrlsF, h]

theorem findUrls_eq_nil {cs : Text} (h : containsUrl cs = false) : findUrls cs = [] := by
  induction cs with
  | nil => exact findUrls_nil
  | cons c rest ih =>
    cases hm : matchUrlLen (c :: rest) with
    | some n => simp [containsUrl, hm] at h
    | none =>
      rw [findUrls_none_cons hm]
      refine ih ?_
      simpa [containsUrl, hm] using h

theorem matchUrlLen_none_of_head {c : Char} (rest : Text) (hc : c ≠ 'h') :
    matchUrlLen (c :: rest) = none := by
  unfold matchUrlLen
  have h8 : (c :: rest).take 8 ≠ httpsPre := by
    intro heq
    have := congrArg List.head? heq
    simp [httpsPre] at this
    exact hc this
  have h7 : (c :: rest).take 7 ≠ httpPre := by
    intro heq
    have := congrArg List.head? heq
    simp [httpPre] at this
    exact hc this
  rw [if_neg h8, if_neg h7]

theorem containsUrl_append_no_h {repl : Text} (hh : 'h' ∉ repl) (X : Text) :
    containsUrl (repl ++ X) = containsUrl X := by
  induction repl with
  | nil => simp
  | cons r rs ih =>
    have hr : r ≠ 'h' := by
      intro e
      exact hh (by rw [e]; exact List.mem_cons_self _ _)
    have hrs : 'h' ∉ rs := fun hm => hh (List.mem_cons_of_mem _ hm)
    simp only [List.cons_append, containsUrl]
    rw [matchUrlLen_none_of_head _ hr]
    simp [ih hrs]

theorem takeUrlRun_subUrls_zero (repl : Text) {rest : Text} (h : takeUrlRun rest = 0) :
    takeUrlRun (subUrls repl rest) = 0 := by
  cases rest with
  | nil => simp [subUrls_nil, takeUrlRun]
  | cons r rs =>
    have hu : urlChar r = false := by
      simp only [takeUrlRun] at h
      split at h
      · omega
      · next hcu => simpa using hcu
    have hr : r ≠ 'h' := by
      intro e
      rw [e] at hu
      exact absurd hu (by decide)
    rw [subUrls_none_cons repl (matchUrlLen_none_of_head _ hr)]
    simp [takeUrlRun, hu]

/-- Key step for the empty-context guarantee: substituting URLs in the tail
of a non-matching position cannot create a URL match at that position,
because the replacement text begins with a bracket character that fits
nowhere in the URL pattern prefix. -/
theorem matchUrlLen_subUrls_none {repl : Text} {c : Char} {rest : Text}
    (hb : repl.head? = some '[') (hnone : matchUrlLen (c :: rest) = none) :
    matchUrlLen (c :: subUrls repl rest) = none := by
  obtain ⟨rt, hrt⟩ : ∃ t, repl = '[' :: t := by
    cases repl with
    | nil => simp at hb
    | cons a t =>
      simp at hb
      exact ⟨t, by rw [hb]⟩
  subst hrt
  by_cases hc : c = 'h'
  case neg => exact matchUrlLen_none_of_head _ hc
  subst hc
  cases hm0 : matchUrlLen rest with
  | some n =>
    rw [subUrls_some _ hm0]
    simp [matchUrlLen, httpsPre, httpPre]
  | none =>
  cases rest with
  | nil =>
    rw [subUrls_nil]
    decide
  | cons r0 rest1 =>
  rw [subUrls_none_cons _ hm0]
  by_cases h0 : r0 = 't'
  case neg => simp [matchUrlLen, httpsPre, httpPre, h0]
  subst h0
  cases hm1 : matchUrlLen rest1 with
  | some n =>
    rw [subUrls_some _ hm1]
    simp [matchUrlLen, httpsPre, httpPre]
  | none =>
  cases rest1 with
  | nil =>
    rw [subUrls_nil]
    decide
  | cons r1 rest2 =>
  rw [subUrls_none_cons _ hm1]
  by_cases h1 : r1 = 't'
  case neg => simp [matchUrlLen, httpsPre, httpPre, h1]
  subst h1
  cases hm2 : matchUrlLen rest2 with
  | some n =>
    rw [subUrls_some _ hm2]
    simp [matchUrlLen, httpsPre, httpPre]
  | none =>
  cases rest2 with
  | nil =>
    rw [subUrls_nil]
    decide
  | cons r2 rest3 =>
  rw [subUrls_none_cons _ hm2]
  by_cases h2 : r2 = 'p'
  case neg => simp [matchUrlLen, httpsPre, httpPre, h2]
  subst h2
  cases hm3 : matchUrlLen rest3 with
  | some n =>
    rw [subUrls_some _ hm3]
    simp [matchUrlLen, httpsPre, httpPre]
  | none =>
  cases rest3 with
  | nil =>
    rw [subUrls_nil]
    decide
  | cons r3 rest4 =>
  rw [subUrls_none_cons _ hm3]
  by_cases h3s : r3 = 's'
  case pos =>
    -- the https branch of the pattern
    subst h3s
    cases hm4 : matchUrlLen rest4 with
    | some n =>
      rw [subUrls_some _ hm4]
      simp [matchUrlLen, httpsPre, httpPre]
    | none =>
    cases rest4 with
    | nil =>
      rw [subUrls_nil]
      decide
    | cons r4 rest5 =>
    rw [subUrls_none_cons _ hm4]
    by_cases h4 : r4 = ':'
    case neg => simp [matchUrlLen, httpsPre, httpPre, h4]
    subst h4
    cases hm5 : matchUrlLen rest5 with
    | some n =>
      rw [subUrls_some _ hm5]
      simp [matchUrlLen, httpsPre, httpPre]
    | none =>
    cases rest5 with
    | nil =>
      rw [subUrls_nil]
      decide
    | cons r5 rest6 =>
    rw [subUrls_none_cons _ hm5]
    by_cases h5 : r5 = '/'
    case neg => simp [matchUrlLen, httpsPre, httpPre, h5]
    subst h5
    cases hm6 : matchUrlLen rest6 with
    | some n =>
      rw [subUrls_some _ hm6]
      simp [matchUrlLen, httpsPre, httpPre]
    | none =>
    cases rest6 with
    | nil =>
      rw [subUrls_nil]
      decide
    | cons r6 rest7 =>
    rw [subUrls_none_cons _ hm6]
    by_cases h6 : r6 = '/'
    case neg => simp [matchUrlLen, httpsPre, httpPre, h6]
    subst h6
    have h7 : takeUrlRun rest7 = 0 := by
      by_contra hne
      simp [matchUrlLen, httpsPre, httpPre, hne] at hnone
    simp [matchUrlLen, httpsPre, httpPre, takeUrlRun_subUrls_zero _ h7]
  case neg =>
  by_cases h3c : r3 = ':'
  case neg => simp [matchUrlLen, httpsPre, httpPre, h3s, h3c]
  subst h3c
  cases hm4 : matchUrlLen rest4 with
  | some n =>
    rw [subUrls_some _ hm4]
    simp [matchUrlLen, httpsPre, httpPre]
  | none =>
  cases rest4 with
  | nil =>
    rw [subUrls_nil]
    decide
  | cons r4 rest5 =>
  rw [subUrls_none_cons _ hm4]
  by_cases h4 : r4 = '/'
  case neg => simp [matchUrlLen, httpsPre, httpPre, h4]
  subst h4
  cases hm5 : matchUrlLen rest5 with
  | some n =>
    rw [subUrls_some _ hm5]
    simp [matchUrlLen, httpsPre, httpPre]
  | none =>
  cases rest5 with
  | nil =>
    rw [subUrls_nil]
    decide
  | cons r5 rest6 =>
  rw [subUrls_none_cons _ hm5]
  by_cases h5 : r5 = '/'
  case neg => simp [matchUrlLen, httpsPre, httpPre, h5]
  subst h5
  have h6 : takeUrlRun rest6 = 0 := by
    by_contra hne
    simp [matchUrlLen, httpsPre, httpPre, hne] at hnone
  simp [matchUrlLen, httpsPre, httpPre, takeUrlRun_subUrls_zero _ h6]

/-- After substituting every URL match with a replacement that starts with
a bracket and contains no letter h, no URL-shaped substring remains. -/
theorem containsUrl_subUrls {repl : Text} (hh : 'h' ∉ repl)
    (hb : repl.head? = some '[') (cs : Text) :
    containsUrl (subUrls repl cs) = false := by
  have H : ∀ k (cs : Text), cs.length ≤ k → containsUrl (subUrls repl cs) = false := by
    intro k
    induction k with
    | zero =>
      intro cs hl
      have : cs = [] := List.eq_nil_of_length_eq_zero (Nat.le_zero.mp hl)
      subst this
      simp [subUrls_nil, containsUrl]
    | succ k ih =>
      intro cs hl
      cases hm : matchUrlLen cs with
      | some n =>
        rw [subUrls_some repl hm]
        rw [containsUrl_append_no_h hh]
        refine ih _ ?_
        have := matchUrlLen_bounds hm
        simp [List.length_drop]
        omega
      | none =>
        cases cs with
        | nil => simp [subUrls_nil, containsUrl]
        | cons c rest =>
          rw [subUrls_none_cons repl hm]
          have h1 : containsUrl (subUrls repl rest) = false := by
            refine ih rest ?_
            simp at hl
            omega
          have h2 : matchUrlLen (c :: subUrls repl rest) = none :=
            matchUrlLen_subUrls_none hb hm
          simp [containsUrl, h1, h2]
  exact H cs.length cs le_rfl

/-- C1: for every generated text and an empty grounding context, the
validator replaces every URL-shaped substring of the text with the fixed
placeholder (it is exactly the pattern substitution with the fixed
replacement string), and no URL-shaped substring remains in the returned
output. -/
theorem emptyContext_removes_every_url (text : Text) :
    validateUrlsAgainstContext text [] = subUrls placeholderEmptyCtx text ∧
    containsUrl (validateUrlsAgainstContext text []) = false := by
  refine ⟨rfl, ?_⟩
  show containsUrl (subUrls placeholderEmptyCtx text) = false
  exact containsUrl_subUrls (by decide) (by decide) text

/-- C10: with a non-empty grounding context, a generated text containing no
URL-shaped substring is returned completely unchanged: validation only ever
rewrites URL-shaped substrings. -/
theorem validator_leaves_url_free_text_unchanged (context : List CtxItem) (text : Text)
    (hc : context ≠ []) (ht : containsUrl text = false) :
    validateUrlsAgainstContext text context = text := by
  unfold validateUrlsAgainstContext
  rw [if_neg hc]
  simp only [findUrls_eq_nil ht]
  rfl

theorem validator_leaves_url_free_text_unchanged_witness :
    validateUrlsAgainstContext "hello world".toList [["an answer".toList]]
      = "hello world".toList :=
  validator_leaves_url_free_text_unchanged [["an answer".toList]] "hello world".toList
    (by decide) (by decide)

/-- C2: URL normalization (strip trailing punctuation, strip trailing
slashes, lowercase) is applied by one and the same function to allow-list
URLs and candidate URLs; on the concrete context and text of the claim the
trailing-slash variant of the allowed URL is left intact and the output is
the unchanged input text. -/
theorem validator_keeps_slash_variant_intact :
    validateUrlsAgainstContext "Try https://roadmap.sh/frontend/ now".toList
        [["See https://roadmap.sh/frontend".toList]]
      = "Try https://roadmap.sh/frontend/ now".toList ∧
    "https://roadmap.sh/frontend/".toList <:+:
      validateUrlsAgainstContext "Try https://roadmap.sh/frontend/ now".toList
        [["See https://roadmap.sh/frontend".toList]] := by
  constructor
  · decide
  · decide

/-- np.dot on two one-dimensional arrays: the sum of pointwise products.
It is only ever applied after the shape check of the code, i.e. to vectors
of equal length. -/
def dotList : List ℝ → List ℝ → ℝ
  | x :: xs, y :: ys => x * y + dotList xs ys
  | _, _ => 0

/-- Sum of squares of the entries. -/
def sumSq (v : List ℝ) : ℝ := dotList v v

/-- np.linalg.norm: the Euclidean norm. -/
noncomputable def euclidNorm (v : List ℝ) : ℝ := Real.sqrt (sumSq v)

/-- EmbeddingService._calculate_cosine_similarity: 0 when either norm is
zero, else the dot product over the product of the norms. -/
noncomputable def cosineSim (v1 v2 : List ℝ) : ℝ :=
  if euclidNorm v1 = 0 ∨ euclidNorm v2 = 0 then 0
  else dotList v1 v2 / (euclidNorm v1 * euclidNorm v2)

theorem sumSq_nonneg : ∀ v : List ℝ, 0 ≤ sumSq v := by
  intro v
  induction v with
  | nil => simp [sumSq, dotList]
  | cons x xs ih =>
    simp only [sumSq, dotList] at *
    nlinarith [sq_nonneg x]

theorem dotList_comm : ∀ v w : List ℝ, dotList v w = dotList w v := by
  intro v
  induction v with
  | nil =>
    intro w
    cases w <;> simp [dotList]
  | cons x xs ih =>
    intro w
    cases w with
    | nil => simp [dotList]
    | cons y ys => simp [dotList, ih ys, mul_comm]

/-- Cauchy-Schwarz for the pointwise dot product. -/
theorem dotList_sq_le : ∀ v w : List ℝ, (dotList v w) ^ 2 ≤ sumSq v * sumSq w := by
  intro v
  induction v with
  | nil =>
    intro w
    simp [dotList, sumSq]
  | cons x xs ih =>
    intro w
    cases w with
    | nil => simp [dotList, sumSq, sumSq_nonneg (x :: xs)]
    | cons y ys =>
      have ihs := ih ys
      have h1 : (0:ℝ) ≤ sumSq xs := sumSq_nonneg xs
      have h2 : (0:ℝ) ≤ sumSq ys := sumSq_nonneg ys
      simp only [sumSq, dotList] at *
      by_cases hS1 : dotList xs xs = 0
      · have hD2 : dotList xs ys ^ 2 ≤ 0 := by
          rw [hS1] at ihs
          simpa using ihs
        have hD : dotList xs ys = 0 := by
          have := sq_nonneg (dotList xs ys)
          nlinarith
        rw [hS1, hD]
        nlinarith [mul_nonneg (sq_nonneg x) h2, sq_nonneg x, sq_nonneg y]
      · have hS1pos : 0 < dotList xs xs := lt_of_le_of_ne h1 (Ne.symm hS1)
        nlinarith [sq_nonneg (x * dotList xs ys - y * dotList xs xs),
          mul_nonneg h1 (sub_nonneg.2 ihs),
          mul_nonneg (sq_nonneg x) (sub_nonneg.2 ihs), hS1pos]

theorem euclidNorm_nonneg (v : List ℝ) : 0 ≤ euclidNorm v := Real.sqrt_nonneg _

theorem euclidNorm_sq (v : List ℝ) : euclidNorm v ^ 2 = sumSq v :=
  Real.sq_sqrt (sumSq_nonneg v)

theorem cosineSim_comm (v w : List ℝ) : cosineSim v w = cosineSim w v := by
  by_cases h : euclidNorm v = 0 ∨ euclidNorm w = 0
  · rw [cosineSim, if_pos h, cosineSim, if_pos h.symm]
  · rw [cosineSim, if_neg h, cosineSim, if_neg (fun hh => h hh.symm)]
    rw [dotList_comm, mul_comm]

theorem cosineSim_bounds (v w : List ℝ) : -1 ≤ cosineSim v w ∧ cosineSim v w ≤ 1 := by
  by_cases h : euclidNorm v = 0 ∨ euclidNorm w = 0
  · rw [cosineSim, if_pos h]
    norm_num
  · rw [cosineSim, if_neg h]
    push_neg at h
    have hv : 0 < euclidNorm v := lt_of_le_of_ne (euclidNorm_nonneg v) (Ne.symm h.1)
    have hw : 0 < euclidNorm w := lt_of_le_of_ne (euclidNorm_nonneg w) (Ne.symm h.2)
    have hvw : 0 < euclidNorm v * euclidNorm w := mul_pos hv hw
    have hcs : (dotList v w) ^ 2 ≤ (euclidNorm v * euclidNorm w) ^ 2 := by
      rw [mul_pow, euclidNorm_sq, euclidNorm_sq]
      exact dotList_sq_le v w
    constructor
    · rw [le_div_iff₀ hvw]
      nlinarith [hcs, hvw]
    · rw [div_le_one hvw]
      nlinarith [hcs, hvw]

theorem cosineSim_zero_of_norm_zero {v w : List ℝ}
    (h : euclidNorm v = 0 ∨ euclidNorm w = 0) : cosineSim v w = 0 := by
  rw [cosineSim, if_pos h]

/-- The cosine similarity of the code on the one-dimensional vectors [1]
and [-1] is exactly -1. -/
theorem cosineSim_one_negone : cosineSim [(1:ℝ)] [(-1:ℝ)] = -1 := by
  have e1 : euclidNorm [(1:ℝ)] = 1 := by
    norm_num [euclidNorm, sumSq, dotList]
  have e2 : euclidNorm [(-1:ℝ)] = 1 := by
    norm_num [euclidNorm, sumSq, dotList]
  rw [cosineSim, if_neg (by rw [e1, e2]; norm_num)]
  rw [e1, e2]
  norm_num [dotList]

/-- C6 amended: cosine similarity is symmetric in its arguments, bounded in
[-1, 1] (not [0, 1]: it is negative on opposed vectors), and exactly 0 when
either vector has zero Euclidean norm, so no division by zero occurs. -/
theorem cosineSim_symm_bounded (v w : List ℝ) :
    cosineSim v w = cosineSim w v ∧
    (-1 ≤ cosineSim v w ∧ cosineSim v w ≤ 1) ∧
    ((euclidNorm v = 0 ∨ euclidNorm w = 0) → cosineSim v w = 0) :=
  ⟨cosineSim_comm v w, cosineSim_bounds v w, fun h => cosineSim_zero_of_norm_zero h⟩

theorem cosineSim_symm_bounded_witness : cosineSim [(0:ℝ)] [(1:ℝ)] = 0 :=
  (cosineSim_symm_bounded [(0:ℝ)] [(1:ℝ)]).2.2
    (Or.inl (by norm_num [euclidNorm, sumSq, dotList]))

/-- C6 counterexample: on the vectors [1] and [-1] the cosine similarity of
the code is -1, which is not in [0, 1]; the claimed bound of [0, 1] fails
(the correct bound is [-1, 1]). -/
theorem cosineSim_below_zero_example :
    cosineSim [(1:ℝ)] [(-1:ℝ)] = -1 ∧ ¬ (0 ≤ cosineSim [(1:ℝ)] [(-1:ℝ)]) := by
  refine ⟨cosineSim_one_negone, ?_⟩
  rw [cosineSim_one_negone]
  norm_num

/-- Stable insertion of one element into a descending-sorted list: walk
past strictly larger keys and insert before the first key not larger, so an
earlier element precedes later elements of equal key. -/
def insertDesc {α κ : Type} [LinearOrder κ] (key : α → κ) (x : α) : List α → List α
  | [] => [x]
  | y :: ys => if key x < key y then y :: insertDesc key x ys else x :: y :: ys

/-- Python list.sort with a key and reverse=True: a stable descending
sort. -/
def sortDesc {α κ : Type} [LinearOrder κ] (key : α → κ) : List α → List α
  | [] => []
  | x :: xs => insertDesc key x (sortDesc key xs)

theorem mem_insertDesc {α κ : Type} [LinearOrder κ] (key : α → κ) (x a : α) :
    ∀ l : List α, a ∈ insertDesc key x l ↔ a = x ∨ a ∈ l := by
  intro l
  induction l with
  | nil => simp [insertDesc]
  | cons y ys ih =>
    simp only [insertDesc]
    split
    · simp only [List.mem_cons, ih]
      tauto
    · simp only [List.mem_cons]

theorem mem_sortDesc {α κ : Type} [LinearOrder κ] (key : α → κ) (a : α) :
    ∀ l : List α, a ∈ sortDesc key l ↔ a ∈ l := by
  intro l
  induction l with
  | nil => simp [sortDesc]
  | cons x xs ih =>
    simp only [sortDesc, mem_insertDesc, List.mem_cons, ih]

theorem filter_insertDesc {α κ : Type} [LinearOrder κ] [DecidableEq κ]
    (key : α → κ) (x : α) (s : κ) :
    ∀ l : List α,
      (insertDesc key x l).filter (fun a => decide (key a = s))
        = if key x = s then x :: l.filter (fun a => decide (key a = s))
          else l.filter (fun a => decide (key a = s)) := by
  intro l
  induction l with
  | nil =>
    by_cases hx : key x = s <;> simp [insertDesc, List.filter, hx]
  | cons y ys ih =>
    simp only [insertDesc]
    by_cases hxy : key x < key y
    · rw [if_pos hxy]
      by_cases hy : key y = s
      · have hx : key x ≠ s := by
          intro e
          have exy : key x = key y := e.trans hy.symm
          rw [exy] at hxy
          exact lt_irrefl _ hxy
        simp [List.filter_cons, hy, hx, ih]
      · simp [List.filter_cons, hy, ih]
    · rw [if_neg hxy]
      by_cases hx : key x = s <;> simp [List.filter_cons, hx]

/-- Stability of the embedded sort: elements of any fixed key keep their
input order (filtering the sorted list to one key value gives exactly the
same-key sublist of the input, in input order). -/
theorem sortDesc_stable {α κ : Type} [LinearOrder κ] [DecidableEq κ]
    (key : α → κ) (s : κ) :
    ∀ l : List α,
      (sortDesc key l).filter (fun a => decide (key a = s))
        = l.filter (fun a => decide (key a = s)) := by
  intro l
  induction l with
  | nil => simp [sortDesc]
  | cons x xs ih =>
    simp only [sortDesc]
    rw [filter_insertDesc]
    by_cases hx : key x = s <;> simp [List.filter_cons, hx, ih]

/-- Python str.strip: remove leading and trailing whitespace. -/
def pyStrip (cs : Text) : Text := dropTrailWhile isSpaceChar (cs.dropWhile isSpaceChar)

/-- Python str.split with no separator: maximal runs of non-whitespace
characters (the accumulator carries the current word reversed). -/
def pySplitGo : Text → Text → List Text
  | [], acc => if acc = [] then [] else [acc.reverse]
  | c :: rest, acc =>
    if isSpaceChar c then
      if acc = [] then pySplitGo rest [] else acc.reverse :: pySplitGo rest []
    else pySplitGo rest (c :: acc)

def pySplit (cs : Text) : List Text := pySplitGo cs []

/-- A searchable document row.  The code passes polymorphic string-keyed
rows; FAQ rows carry the question/answer fields, roadmap rows carry
title/description/category/url/slug; fields absent from a row are read with
a default of the empty string, which the defaults here mirror. -/
structure Doc where
  id : Nat := 0
  title : Text := []
  description : Text := []
  category : Text := []
  url : Text := []
  slug : Text := []
  question_ar : Text := []
  question_en : Text := []
  answer_ar : Text := []
  answer_en : Text := []
  isActive : Bool := true
  isPublished : Bool := true
  embedding : Option (List ℝ) := none

/-- EmbeddingService.generate_embedding: none for empty or whitespace-only
text, none when the local model is unavailable, none when the model output
does not have the expected 384 dimensions; otherwise the vector produced by
the external embedding collaborator (passed as a function). -/
def generateEmbedding (available : Bool) (embed : Text → Option (List ℝ))
    (text : Text) : Option (List ℝ) :=
  if pyStrip text = [] then none
  else if available then
    match embed (pyStrip text) with
    | none => none
    | some e => if e.length = 384 then some e else none
  else none

/-- Python " ".join. -/
def joinWithSpace : List Text → Text
  | [] => []
  | [x] => x
  | x :: xs => x ++ ' ' :: joinWithSpace xs

/-- The searchable text of EmbeddingService._keyword_search_fallback:
join the truthy text fields with spaces and lowercase. -/
def docItemText (d : Doc) : Text :=
  (joinWithSpace (([d.title, d.description, d.category, d.question_ar,
    d.question_en, d.answer_ar, d.answer_en]).filter (fun t => t ≠ []))).map lowerChar

/-- Word-overlap score of the keyword fallback: the number of distinct
query words that occur among the item words, over the number of distinct
query words (0 when either side is empty).  Python uses sets; distinct
counts over lists are the equivalent embedding. -/
def keywordScore (queryWords itemWords : List Text) : ℚ :=
  if itemWords = [] ∨ queryWords = [] then 0
  else ((queryWords.dedup.filter (fun w => w ∈ itemWords)).length : ℚ)
    / (queryWords.dedup.length : ℚ)

/-- EmbeddingService._keyword_search_fallback over rational scores: keep
items of positive score, sort stably by descending score, truncate. -/
def keywordFallbackQ (queryText : Text) (items : List Doc) (limit : Nat) :
    List (Doc × ℚ) :=
  let queryParts := pySplit (queryText.map lowerChar)
  let scored := items.filterMap (fun d =>
    let score := keywordScore queryParts (pySplit (docItemText d))
    if 0 < score then some (d, score) else none)
  (sortDesc (fun p => p.2) scored).take limit

/-- The keyword fallback with its scores read as reals (the code computes
float ratios; the order embedding of the rationals into the reals makes
sorting before or after the cast indistinguishable). -/
noncomputable def keywordFallback (queryText : Text) (items : List Doc) (limit : Nat) :
    List (Doc × ℝ) :=
  (keywordFallbackQ queryText items limit).map (fun p => (p.1, (p.2 : ℝ)))

/-- The scoring loop of EmbeddingService.search_similar_roadmaps: skip a
candidate without an embedding (or with an empty one), skip a candidate of
mismatched dimensionality without comparing it, score the rest by cosine
similarity against the query vector. -/
noncomputable def vectorScored (queryVec : List ℝ) (roadmaps : List Doc) :
    List (Doc × ℝ) :=
  roadmaps.filterMap (fun d =>
    match d.embedding with
    | none => none
    | some e =>
      if e = [] then none
      else if e.length = queryVec.length then some (d, cosineSim queryVec e)
      else none)

/-- EmbeddingService.search_similar_roadmaps: client-side vector search
when the model is available and produced a query embedding and at least one
candidate was scored; otherwise the keyword fallback (when allowed). -/
noncomputable def searchSimilarRoadmaps (available : Bool)
    (embed : Text → Option (List ℝ)) (queryText : Text) (roadmaps : List Doc)
    (limit : Nat) (allowFallback : Bool) : List (Doc × ℝ) :=
  if roadmaps.isEmpty then []
  else
    let scored :=
      if available then
        match generateEmbedding available embed queryText with
        | some qv => vectorScored qv roadmaps
        | none => []
      else []
    if !scored.isEmpty then (sortDesc (fun p => p.2) scored).take limit
    else if allowFallback then keywordFallback queryText roadmaps limit
    else []

/-- C5: a candidate document whose embedding has a dimensionality different
from the query embedding is excluded from the client-side scored results
(and hence from the sorted, truncated result list) and is never compared;
the embedded scoring loop is a total function, so no error is raised. -/
theorem mismatched_candidate_never_scored (queryVec : List ℝ) (docs : List Doc)
    (limit : Nat) (d : Doc) (e : List ℝ) (s : ℝ)
    (hd : d.embedding = some e) (hlen : e.length ≠ queryVec.length) :
    (d, s) ∉ vectorScored queryVec docs ∧
    (d, s) ∉ (sortDesc (fun p => p.2) (vectorScored queryVec docs)).take limit := by
  have h1 : (d, s) ∉ vectorScored queryVec docs := by
    intro hmem
    rw [vectorScored, List.mem_filterMap] at hmem
    obtain ⟨d2, _, hf⟩ := hmem
    cases he2 : d2.embedding with
    | none =>
      rw [he2] at hf
      simp at hf
    | some e2 =>
      rw [he2] at hf
      by_cases hnil : e2 = []
      · simp [hnil] at hf
      · by_cases hl : e2.length = queryVec.length
        · simp only [hnil, if_neg, hl, if_pos, if_true, reduceIte,
            Option.some.injEq, Prod.mk.injEq] at hf
          obtain ⟨hde, _⟩ := hf
          subst hde
          rw [hd] at he2
          injection he2 with he
          rw [← he] at hl
          exact hlen hl
        · simp [hnil, hl] at hf
  refine ⟨h1, fun hmem => h1 ((mem_sortDesc _ _ _).mp (List.take_subset _ _ hmem))⟩

def c5doc : Doc := { id := 7, title := ['m', 'l'], embedding := some [(1:ℝ)] }

theorem mismatched_candidate_never_scored_witness :
    (c5doc, (0:ℝ)) ∉ vectorScored [(1:ℝ), (0:ℝ)] [c5doc] ∧
    (c5doc, (0:ℝ)) ∉
      (sortDesc (fun p : Doc × ℝ => p.2) (vectorScored [(1:ℝ), (0:ℝ)] [c5doc])).take 5 :=
  mismatched_candidate_never_scored [(1:ℝ), (0:ℝ)] [c5doc] 5 c5doc [(1:ℝ)] 0 rfl
    (by decide)

/-- Length of the common leading run of two lists. -/
def commonRun : Text → Text → Nat
  | x :: xs, y :: ys => if x = y then commonRun xs ys + 1 else 0
  | _, _ => 0

theorem commonRun_le_left : ∀ a b : Text, commonRun a b ≤ a.length := by
  intro a
  induction a with
  | nil => intro b; cases b <;> simp [commonRun]
  | cons x xs ih =>
    intro b
    cases b with
    | nil => simp [commonRun]
    | cons y ys =>
      simp only [commonRun, List.length_cons]
      split
      · exact Nat.succ_le_succ (ih ys)
      · omega

theorem commonRun_le_right : ∀ a b : Text, commonRun a b ≤ b.length := by
  intro a
  induction a with
  | nil => intro b; cases b <;> simp [commonRun]
  | cons x xs ih =>
    intro b
    cases b with
    | nil => simp [commonRun]
    | cons y ys =>
      simp only [commonRun, List.length_cons]
      split
      · exact Nat.succ_le_succ (ih ys)
      · omega

/-- difflib SequenceMatcher find_longest_match with no junk: the longest
matching block, ties resolved to the earliest start in a and then the
earliest start in b (the fold scans starts in increasing order and updates
only on strictly longer runs).  The popularity (autojunk) filter applied by
difflib to sequences of 200 or more elements only restricts the candidate
starts and does not affect any property stated below. -/
def bestMatch (a b : Text) : Nat × Nat × Nat :=
  ((List.range a.length).flatMap
      (fun i => (List.range b.length).map (fun j => (i, j)))).foldl
    (fun best ij =>
      let k := commonRun (a.drop ij.1) (b.drop ij.2)
      if best.2.2 < k then (ij.1, ij.2, k) else best)
    (0, 0, 0)

theorem foldl_preserve {β γ : Type} (P : γ → Prop) (Q : β → Prop)
    (f : γ → β → γ) :
    ∀ (l : List β), (∀ x ∈ l, Q x) → ∀ init, P init →
      (∀ acc x, P acc → Q x → P (f acc x)) → P (l.foldl f init) := by
  intro l
  induction l with
  | nil =>
    intro _ init h0 _
    exact h0
  | cons x xs ih =>
    intro hq init h0 hstep
    exact ih (fun y hy => hq y (List.mem_cons_of_mem _ hy)) (f init x)
      (hstep init x h0 (hq x (List.mem_cons_self _ _))) hstep

theorem bestMatch_inv (a b : Text) :
    (bestMatch a b).2.2 = 0 ∨
      ((bestMatch a b).1 < a.length ∧ (bestMatch a b).2.1 < b.length ∧
       (bestMatch a b).2.2
         = commonRun (a.drop (bestMatch a b).1) (b.drop (bestMatch a b).2.1)) := by
  unfold bestMatch
  refine foldl_preserve
    (fun t : Nat × Nat × Nat => t.2.2 = 0 ∨
      (t.1 < a.length ∧ t.2.1 < b.length ∧
       t.2.2 = commonRun (a.drop t.1) (b.drop t.2.1)))
    (fun ij : Nat × Nat => ij.1 < a.length ∧ ij.2 < b.length) _ _ ?_ _ (Or.inl rfl) ?_
  · intro x hx
    simp only [List.mem_flatMap, List.mem_map, List.mem_range] at hx
    obtain ⟨i, hi, j, hj, rfl⟩ := hx
    exact ⟨hi, hj⟩
  · intro acc x hacc hx
    dsimp only
    split
    · exact Or.inr ⟨hx.1, hx.2, rfl⟩
    · exact hacc

/-- difflib SequenceMatcher get_matching_blocks, reduced to the total
number of matched elements (the only quantity ratio uses): recursively
take the longest match and recurse on the parts before and after it. -/
def matchTotal (a b : Text) : Nat :=
  if (bestMatch a b).2.2 = 0 then 0
  else
    matchTotal (a.take (bestMatch a b).1) (b.take (bestMatch a b).2.1)
      + (bestMatch a b).2.2
      + matchTotal (a.drop ((bestMatch a b).1 + (bestMatch a b).2.2))
          (b.drop ((bestMatch a b).2.1 + (bestMatch a b).2.2))
termination_by a.length + b.length
decreasing_by
  · rcases bestMatch_inv a b with h0 | ⟨hi, hj, _⟩
    · omega
    · simp [List.length_take]
      omega
  · rcases bestMatch_inv a b with h0 | ⟨hi, hj, hk⟩
    · omega
    · have hka : (bestMatch a b).2.2 ≤ a.length - (bestMatch a b).1 := by
        rw [hk]
        have := commonRun_le_left (a.drop (bestMatch a b).1) (b.drop (bestMatch a b).2.1)
        simpa [List.length_drop] using this
      simp [List.length_drop]
      omega

/-- difflib SequenceMatcher ratio: 2 M / T where M is the total size of
the matching blocks and T the total length of both sequences (1 when both
sequences are empty). -/
def ratioScore (a b : Text) : ℚ :=
  if a.length + b.length = 0 then 1
  else (2 * (matchTotal a b : ℚ)) / ((a.length : ℚ) + (b.length : ℚ))

theorem matchTotal_le_lengths :
    ∀ (n : Nat) (a b : Text), a.length + b.length ≤ n →
      matchTotal a b ≤ a.length ∧ matchTotal a b ≤ b.length := by
  intro n
  induction n with
  | zero =>
    intro a b h
    have ha : a = [] := List.eq_nil_of_length_eq_zero (by omega)
    have hb : b = [] := List.eq_nil_of_length_eq_zero (by omega)
    subst ha
    subst hb
    rw [matchTotal, if_pos (by decide)]
    simp
  | succ m ih =>
    intro a b h
    by_cases hkz : (bestMatch a b).2.2 = 0
    · rw [matchTotal, if_pos hkz]
      simp
    · rw [matchTotal, if_neg hkz]
      rcases bestMatch_inv a b with h0 | ⟨hi, hj, hk⟩
      · exact absurd h0 hkz
      · have hka : (bestMatch a b).2.2 ≤ a.length - (bestMatch a b).1 := by
          rw [hk]
          simpa [List.length_drop] using
            commonRun_le_left (a.drop (bestMatch a b).1) (b.drop (bestMatch a b).2.1)
        have hkb : (bestMatch a b).2.2 ≤ b.length - (bestMatch a b).2.1 := by
          rw [hk]
          simpa [List.length_drop] using
            commonRun_le_right (a.drop (bestMatch a b).1) (b.drop (bestMatch a b).2.1)
        have hL := ih (a.take (bestMatch a b).1) (b.take (bestMatch a b).2.1)
          (by simp [List.length_take]; omega)
        have hR := ih (a.drop ((bestMatch a b).1 + (bestMatch a b).2.2))
          (b.drop ((bestMatch a b).2.1 + (bestMatch a b).2.2))
          (by simp [List.length_drop]; omega)
        simp only [List.length_take, List.length_drop] at hL hR
        constructor
        · have h1 := hL.1
          have h2 := hR.1
          omega
        · have h1 := hL.2
          have h2 := hR.2
          omega

/-- The sequence-similarity ratio is always in [0, 1]. -/
theorem ratioScore_bounds (a b : Text) : 0 ≤ ratioScore a b ∧ ratioScore a b ≤ 1 := by
  unfold ratioScore
  split
  · norm_num
  · next hne =>
    have hM := matchTotal_le_lengths (a.length + b.length) a b le_rfl
    have hpos : (0:ℚ) < (a.length : ℚ) + (b.length : ℚ) := by
      have hp : 0 < a.length + b.length := Nat.pos_of_ne_zero hne
      exact_mod_cast hp
    constructor
    · positivity
    · rw [div_le_one hpos]
      have h2 : 2 * matchTotal a b ≤ a.length + b.length := by omega
      exact_mod_cast h2

/-- RoadmapService._calculate_similarity: the SequenceMatcher ratio of the
lowercased strings. -/
def calcSimilarity (s1 s2 : Text) : ℚ :=
  ratioScore (s1.map lowerChar) (s2.map lowerChar)

/-- Python substring containment (the in operator on strings). -/
def isSubstringOf : Text → Text → Bool
  | needle, [] => needle.isEmpty
  | needle, c :: rest => needle.isPrefixOf (c :: rest) || isSubstringOf needle rest

def synPair (k : String) (vs : List String) : Text × List Text :=
  (k.toList, vs.map String.toList)

/-- RoadmapService.SYNONYMS, transcribed in definition order. -/
def SYNONYMS : List (Text × List Text) := [
  synPair "ذكاء" ["ai", "artificial intelligence", "machine learning", "data scientist", "mlops"],
  synPair "اصطناعي" ["ai", "artificial intelligence", "machine learning", "data scientist"],
  synPair "ذكاء اصطناعي" ["ai", "artificial intelligence", "machine learning", "data scientist", "mlops"],
  synPair "ai" ["artificial intelligence", "machine learning", "data scientist", "mlops", "data science"],
  synPair "artificial intelligence" ["ai", "machine learning", "data scientist", "mlops"],
  synPair "machine learning" ["ai", "data scientist", "mlops", "ml"],
  synPair "ml" ["machine learning", "ai", "mlops", "data scientist"],
  synPair "data science" ["ai", "data scientist", "machine learning"],
  synPair "بيانات" ["data", "data scientist", "ai"],
  synPair "ويب" ["web", "frontend", "backend", "full stack"],
  synPair "web" ["frontend", "backend", "full stack"],
  synPair "فرونت" ["frontend", "react", "javascript"],
  synPair "فرونت اند" ["frontend", "react", "javascript", "web"],
  synPair "فرونت إند" ["frontend", "react", "javascript", "web"],
  synPair "الفرونت" ["frontend", "react", "javascript"],
  synPair "frontend" ["react", "javascript", "web"],
  synPair "باك" ["backend", "node", "python", "java"],
  synPair "باك اند" ["backend", "node", "python", "java", "web"],
  synPair "باك إند" ["backend", "node", "python", "java", "web"],
  synPair "الباك" ["backend", "node", "python", "java"],
  synPair "backend" ["node", "python", "java", "web"],
  synPair "full stack" ["frontend", "backend", "web"],
  synPair "فول ستاك" ["full stack", "frontend", "backend"],
  synPair "موبايل" ["mobile", "android", "flutter", "react native"],
  synPair "mobile" ["android", "flutter", "react native"],
  synPair "اندرويد" ["android", "mobile"],
  synPair "android" ["mobile"],
  synPair "flutter" ["mobile"],
  synPair "ديف اوبس" ["devops", "docker", "kubernetes"],
  synPair "devops" ["docker", "kubernetes"],
  synPair "docker" ["devops", "kubernetes"],
  synPair "kubernetes" ["devops", "docker"],
  synPair "امن" ["security", "cyber security", "cyber"],
  synPair "امان" ["security", "cyber security"],
  synPair "security" ["cyber security", "cyber"],
  synPair "cyber" ["security", "cyber security"],
  synPair "قواعد بيانات" ["database", "sql", "mongodb", "postgresql"],
  synPair "database" ["sql", "mongodb", "postgresql"],
  synPair "sql" ["database", "postgresql"],
  synPair "mongodb" ["database"],
  synPair "postgresql" ["database", "sql"],
  synPair "تصميم" ["design", "ux"],
  synPair "design" ["ux"],
  synPair "ux" ["design"],
  synPair "بلوكتشين" ["blockchain"],
  synPair "blockchain" ["web3"],
  synPair "web3" ["blockchain"],
  synPair "python" ["backend", "ai", "data scientist"],
  synPair "java" ["backend"],
  synPair "javascript" ["frontend", "backend", "node"],
  synPair "react" ["frontend"],
  synPair "node" ["backend"],
  synPair "go" ["backend"],
  synPair "golang" ["go", "backend"]]

/-- RoadmapService._expand_query: the lowercased query, the synonym lists
of every key occurring in the query, and for every synonym occurring in
the query its key together with that key's full synonym list; the result
is de-duplicated (Python returns the members of a set; every later use of
the expansion is insensitive to its order). -/
def expandQuery (query : Text) : List Text :=
  let queryLower := query.map lowerChar
  (queryLower :: SYNONYMS.flatMap (fun kv =>
    (if isSubstringOf kv.1 queryLower then kv.2 else []) ++
    kv.2.flatMap (fun s2 =>
      if isSubstringOf s2 queryLower then kv.1 :: kv.2 else []))).dedup

/-- The text cleaning of _fuzzy_search for titles and descriptions:
lowercase, ampersand to the word and, hyphen to space. -/
def cleanTitleDesc (cs : Text) : Text :=
  (cs.map lowerChar).flatMap
    (fun c => if c = '&' then ['a', 'n', 'd'] else if c = '-' then [' '] else [c])

/-- The text cleaning of _fuzzy_search for categories: lowercase, slash
and hyphen to space. -/
def cleanCat (cs : Text) : Text :=
  (cs.map lowerChar).flatMap
    (fun c => if c = '/' then [' '] else if c = '-' then [' '] else [c])

/-- The cleaning applied to each expanded query variant: ampersand to the
word and, hyphen to space (the variant is already lowercase). -/
def cleanVariant (cs : Text) : Text :=
  cs.flatMap
    (fun c => if c = '&' then ['a', 'n', 'd'] else if c = '-' then [' '] else [c])

/-- The scoring loop of _fuzzy_search for one candidate: scan the expanded
variants; a direct substring occurrence in the searchable text scores 1 and
stops the scan; otherwise accumulate the maximum sequence-similarity ratio
of the variant against title, description and category. -/
def fuzzyMaxScoreGo (titleC descC catC searchable : Text) : List Text → ℚ → ℚ
  | [], acc => acc
  | v :: vs, acc =>
    let vc := cleanVariant v
    if isSubstringOf vc searchable then max acc 1
    else fuzzyMaxScoreGo titleC descC catC searchable vs
      (max (max (max acc (calcSimilarity vc titleC)) (calcSimilarity vc descC))
        (calcSimilarity vc catC))

/-- The per-candidate score of the synonym-expanded fuzzy tier. -/
def roadmapFuzzyScore (variants : List Text) (d : Doc) : ℚ :=
  fuzzyMaxScoreGo (cleanTitleDesc d.title) (cleanTitleDesc d.description)
    (cleanCat d.category)
    (cleanTitleDesc d.title ++ [' '] ++ cleanTitleDesc d.description ++ [' ']
      ++ cleanCat d.category)
    variants 0

/-- The scored candidates of the text-matching part of _fuzzy_search:
candidates above the minimum relevance threshold 0.15. -/
def fuzzyScored (query : Text) (docs : List Doc) : List (Doc × ℚ) :=
  let variants := expandQuery query
  docs.filterMap (fun d =>
    let score := roadmapFuzzyScore variants d
    if (0.15 : ℚ) < score then some (d, score) else none)

/-- The pure Tier-3 synonym-expanded fuzzy run of _fuzzy_search: score,
filter by the 0.15 threshold, sort stably by descending score, truncate. -/
def fuzzyTextMatch (query : Text) (docs : List Doc) (limit : Nat) : List (Doc × ℚ) :=
  (sortDesc (fun p => p.2) (fuzzyScored query docs)).take limit

/-- RoadmapService._fuzzy_search: fetch the roadmap corpus, attempt the
client-side vector search when any fetched row carries a (truthy) embedding
and the model is available, and otherwise run the synonym-expanded text
matching.  The corpus and the collaborators are passed explicitly. -/
noncomputable def fuzzySearchRoadmaps (available : Bool)
    (embed : Text → Option (List ℝ)) (allRoadmaps : List Doc) (query : Text)
    (limit : Nat) : List (Doc × ℝ) :=
  if allRoadmaps.isEmpty then []
  else
    let clientVec :=
      if (allRoadmaps.any (fun r =>
            match r.embedding with
            | some e => !e.isEmpty
            | none => false)) && available then
        searchSimilarRoadmaps available embed query allRoadmaps limit false
      else []
    if !clientVec.isEmpty then clientVec
    else (fuzzyTextMatch query allRoadmaps limit).map (fun p => (p.1, ((p.2 : ℚ) : ℝ)))

/-- The external collaborators and stored corpora of the search services:
the embedding model (availability flag and embedding function), the two
server-side similarity RPC collaborators (an RPC error and an empty result
are indistinguishable to the caller, both yield the empty list), and the
two document tables. -/
structure SearchEnv where
  available : Bool
  embed : Text → Option (List ℝ)
  rpcRoadmaps : List ℝ → Nat → List (Doc × ℝ)
  rpcFaqs : List ℝ → Nat → List (Doc × ℝ)
  roadmapsTable : List Doc
  faqTable : List Doc

/-- RoadmapService._vector_search: nothing when the embedding model is
unavailable or produced no query embedding, else the server-side
similarity RPC with the fixed 0.5 minimum-similarity threshold. -/
noncomputable def vectorSearchRoadmaps (env : SearchEnv) (query : Text)
    (limit : Nat) : List (Doc × ℝ) :=
  if !env.available then []
  else
    match generateEmbedding env.available env.embed query with
    | none => []
    | some qv => env.rpcRoadmaps qv limit

/-- RoadmapService.search_roadmaps: the vector phase wins only when it
returned results whose top similarity exceeds the 0.6 high-confidence
threshold; otherwise fall back to _fuzzy_search. -/
noncomputable def searchRoadmaps (env : SearchEnv) (query : Text) (limit : Nat)
    (useEmbeddings : Bool) : List (Doc × ℝ) :=
  if useEmbeddings then
    match vectorSearchRoadmaps env query limit with
    | [] => fuzzySearchRoadmaps env.available env.embed env.roadmapsTable query limit
    | top :: rest =>
      if (0.6 : ℝ) < top.2 then top :: rest
      else fuzzySearchRoadmaps env.available env.embed env.roadmapsTable query limit
  else fuzzySearchRoadmaps env.available env.embed env.roadmapsTable query limit

/-- The client-side fallback of RAGService.search_faqs: fetch the active
FAQ rows and reuse the generic client-side search with the keyword
fallback allowed. -/
noncomputable def searchFaqsClientSide (env : SearchEnv) (query : Text) :
    List (Doc × ℝ) :=
  let allFaqs := env.faqTable.filter (fun f => f.isActive)
  if allFaqs.isEmpty then []
  else searchSimilarRoadmaps env.available env.embed query allFaqs 5 true

/-- RAGService.search_faqs: server-side vector RPC when a query embedding
exists and the RPC returned rows, otherwise the client-side fallback. -/
noncomputable def searchFaqs (env : SearchEnv) (query : Text) : List (Doc × ℝ) :=
  match generateEmbedding env.available env.embed query with
  | some qv =>
    let rpcRes := env.rpcFaqs qv 5
    if !rpcRes.isEmpty then rpcRes
    else searchFaqsClientSide env query
  | none => searchFaqsClientSide env query

theorem generateEmbedding_unavailable (embed : Text → Option (List ℝ)) (t : Text) :
    generateEmbedding false embed t = none := by
  unfold generateEmbedding
  split <;> simp

theorem searchSimilar_unavailable (embed : Text → Option (List ℝ)) (q : Text)
    (docs : List Doc) (limit : Nat) :
    searchSimilarRoadmaps false embed q docs limit true
      = if docs.isEmpty then [] else keywordFallback q docs limit := by
  unfold searchSimilarRoadmaps
  split
  · rfl
  · simp

/-- C4 amended (the claim holds for the roadmap corpus only): with the
embedding collaborator unavailable, the roadmap search equals the pure
Tier-3 synonym-expanded fuzzy run over the roadmap corpus; the FAQ search
however falls back to the keyword-overlap search over the active FAQ rows,
not to the Tier-3 fuzzy run — the two corpora do not share one cascade
implementation. -/
theorem unavailable_embedding_search_reduces (env : SearchEnv) (q : Text) (limit : Nat)
    (huna : env.available = false) :
    searchRoadmaps env q limit true
      = (fuzzyTextMatch q env.roadmapsTable limit).map (fun p => (p.1, ((p.2 : ℚ) : ℝ))) ∧
    searchFaqs env q
      = (if (env.faqTable.filter (fun f => f.isActive)).isEmpty then []
         else keywordFallback q (env.faqTable.filter (fun f => f.isActive)) 5) := by
  constructor
  · have hv : vectorSearchRoadmaps env q limit = [] := by
      unfold vectorSearchRoadmaps
      rw [huna]
      rfl
    simp only [searchRoadmaps, hv, if_true]
    rw [huna]
    unfold fuzzySearchRoadmaps
    by_cases htab : env.roadmapsTable.isEmpty
    · rw [if_pos htab]
      have hnil : env.roadmapsTable = [] := List.isEmpty_iff.mp htab
      rw [hnil]
      simp [fuzzyTextMatch, fuzzyScored, sortDesc]
    · rw [if_neg htab]
      simp [Bool.and_false]
  · have hge : generateEmbedding env.available env.embed q = none := by
      rw [huna]
      exact generateEmbedding_unavailable _ _
    unfold searchFaqs
    rw [hge]
    unfold searchFaqsClientSide
    by_cases hf : (env.faqTable.filter (fun f => f.isActive)).isEmpty
    · rw [if_pos hf, if_pos hf]
    · rw [if_neg hf, if_neg hf, huna, searchSimilar_unavailable, if_neg hf]

def c4faq : Doc := { id := 1, question_en := "what is machine learning".toList }

def c4env : SearchEnv := {
  available := false
  embed := fun _ => none
  rpcRoadmaps := fun _ _ => []
  rpcFaqs := fun _ _ => []
  roadmapsTable := []
  faqTable := [c4faq] }

theorem unavailable_embedding_search_reduces_witness :
    searchRoadmaps c4env ['x'] 3 true
      = (fuzzyTextMatch ['x'] c4env.roadmapsTable 3).map (fun p => (p.1, ((p.2 : ℚ) : ℝ))) ∧
    searchFaqs c4env ['x']
      = (if (c4env.faqTable.filter (fun f => f.isActive)).isEmpty then []
         else keywordFallback ['x'] (c4env.faqTable.filter (fun f => f.isActive)) 5) :=
  unavailable_embedding_search_reduces c4env ['x'] 3 rfl

/-- Modelled from the spec (the reference side of the refinement claim):
the Tier-3 synonym-expanded fuzzy run of section 4.3 applied to the FAQ
corpus with its corpus-specific field mapping (question for title, answer
for description, category), in the requested language English: expand the
query, score each candidate by direct substring match (1.0) or maximal
sequence-similarity ratio over the mapped fields, discard scores at or
below 0.15, sort descending, truncate. -/
def specTier3FaqRun (query : Text) (faqs : List Doc) (limit : Nat) : List (Doc × ℚ) :=
  let variants := expandQuery query
  let scored := faqs.filterMap (fun d =>
    let score := fuzzyMaxScoreGo (cleanTitleDesc d.question_en)
      (cleanTitleDesc d.answer_en) (cleanCat d.category)
      (cleanTitleDesc d.question_en ++ [' '] ++ cleanTitleDesc d.answer_en
        ++ [' '] ++ cleanCat d.category)
      variants 0
    if (0.15 : ℚ) < score then some (d, score) else none)
  (sortDesc (fun p => p.2) scored).take limit

/-- C4 counterexample: for the FAQ corpus the claim fails.  With the
embedding collaborator unavailable, the query earn against one active FAQ
whose question is what is machine learning returns nothing (the
keyword-overlap fallback finds no shared word), while the pure Tier-3
synonym-expanded fuzzy run over the same corpus returns the FAQ with a
perfect substring score of 1. -/
theorem faq_fallback_not_tier3_fuzzy :
    searchFaqs c4env "earn".toList
      ≠ (specTier3FaqRun "earn".toList (c4env.faqTable.filter (fun f => f.isActive)) 5).map
          (fun p => (p.1, ((p.2 : ℚ) : ℝ))) := by
  have h1 : searchFaqs c4env "earn".toList = [] := by
    with_unfolding_all rfl
  have h2 : specTier3FaqRun "earn".toList (c4env.faqTable.filter (fun f => f.isActive)) 5
      = [(c4faq, 1)] := by
    with_unfolding_all rfl
  rw [h1, h2]
  simp

theorem calcSimilarity_bounds (a b : Text) :
    0 ≤ calcSimilarity a b ∧ calcSimilarity a b ≤ 1 :=
  ratioScore_bounds _ _

theorem fuzzyMaxScoreGo_bounds (t d c s : Text) :
    ∀ (vs : List Text) (acc : ℚ), 0 ≤ acc → acc ≤ 1 →
      0 ≤ fuzzyMaxScoreGo t d c s vs acc ∧ fuzzyMaxScoreGo t d c s vs acc ≤ 1 := by
  intro vs
  induction vs with
  | nil =>
    intro acc h0 h1
    exact ⟨h0, h1⟩
  | cons v rest ih =>
    intro acc h0 h1
    simp only [fuzzyMaxScoreGo]
    split
    · exact ⟨le_max_of_le_right zero_le_one, max_le h1 le_rfl⟩
    · apply ih
      · exact le_max_of_le_left (le_max_of_le_left (le_max_of_le_left h0))
      · exact max_le (max_le (max_le h1 (calcSimilarity_bounds _ _).2)
          (calcSimilarity_bounds _ _).2) (calcSimilarity_bounds _ _).2

/-- C7 amended: every ScoredDocument of the fuzzy tier carries a
similarity in [0, 1]; the client-side vector tier scores lie in [-1, 1]
(not [0, 1]: cosine similarity can be negative and is not clamped); in
both tiers the descending sort is stable, so documents of equal score
keep their input order. -/
theorem tier_scores_bounded_sort_stable :
    (∀ (q : Text) (docs : List Doc) (d : Doc) (s : ℚ),
        (d, s) ∈ fuzzyScored q docs → 0 ≤ s ∧ s ≤ 1) ∧
    (∀ (qv : List ℝ) (docs : List Doc) (d : Doc) (s : ℝ),
        (d, s) ∈ vectorScored qv docs → -1 ≤ s ∧ s ≤ 1) ∧
    (∀ (q : Text) (docs : List Doc) (s : ℚ),
        (sortDesc (fun p => p.2) (fuzzyScored q docs)).filter
            (fun p => decide (p.2 = s))
          = (fuzzyScored q docs).filter (fun p => decide (p.2 = s))) ∧
    (∀ (qv : List ℝ) (docs : List Doc) (s : ℝ),
        (sortDesc (fun p => p.2) (vectorScored qv docs)).filter
            (fun p => decide (p.2 = s))
          = (vectorScored qv docs).filter (fun p => decide (p.2 = s))) := by
  refine ⟨?_, ?_, ?_, ?_⟩
  · intro q docs d s hmem
    rw [fuzzyScored, List.mem_filterMap] at hmem
    obtain ⟨d2, _, hf⟩ := hmem
    by_cases hth : (0.15 : ℚ) < roadmapFuzzyScore (expandQuery q) d2
    · simp only [hth, if_pos, if_true, reduceIte, Option.some.injEq, Prod.mk.injEq] at hf
      obtain ⟨_, hs⟩ := hf
      rw [← hs]
      exact fuzzyMaxScoreGo_bounds _ _ _ _ _ 0 le_rfl zero_le_one
    · simp [hth] at hf
  · intro qv docs d s hmem
    rw [vectorScored, List.mem_filterMap] at hmem
    obtain ⟨d2, _, hf⟩ := hmem
    cases he2 : d2.embedding with
    | none =>
      rw [he2] at hf
      simp at hf
    | some e2 =>
      rw [he2] at hf
      by_cases hnil : e2 = []
      · simp [hnil] at hf
      · by_cases hl : e2.length = qv.length
        · simp only [hnil, if_neg, hl, if_pos, if_true, reduceIte,
            Option.some.injEq, Prod.mk.injEq] at hf
          obtain ⟨_, hs⟩ := hf
          rw [← hs]
          exact cosineSim_bounds qv e2
        · simp [hnil, hl] at hf
  · intro q docs s
    exact sortDesc_stable _ s _
  · intro qv docs s
    exact sortDesc_stable _ s _

def c7rdoc : Doc := { id := 2, title := "machine learning".toList }

def c7vdoc : Doc := { id := 3, embedding := some [(1:ℝ)] }

theorem tier_scores_bounded_sort_stable_witness :
    (0 ≤ (1:ℚ) ∧ (1:ℚ) ≤ 1) ∧
    (-1 ≤ cosineSim [(1:ℝ)] [(1:ℝ)] ∧ cosineSim [(1:ℝ)] [(1:ℝ)] ≤ 1) ∧
    ((sortDesc (fun p => p.2) (fuzzyScored "machine".toList [c7rdoc])).filter
        (fun p => decide (p.2 = (1:ℚ)))
      = (fuzzyScored "machine".toList [c7rdoc]).filter (fun p => decide (p.2 = (1:ℚ)))) ∧
    ((sortDesc (fun p => p.2) (vectorScored [(1:ℝ)] [c7vdoc])).filter
        (fun p => decide (p.2 = cosineSim [(1:ℝ)] [(1:ℝ)]))
      = (vectorScored [(1:ℝ)] [c7vdoc]).filter
          (fun p => decide (p.2 = cosineSim [(1:ℝ)] [(1:ℝ)]))) := by
  have hm1 : (c7rdoc, (1:ℚ)) ∈ fuzzyScored "machine".toList [c7rdoc] := by
    have he : fuzzyScored "machine".toList [c7rdoc] = [(c7rdoc, (1:ℚ))] := by
      with_unfolding_all rfl
    rw [he]
    exact List.mem_singleton.mpr rfl
  have hm2 : (c7vdoc, cosineSim [(1:ℝ)] [(1:ℝ)]) ∈ vectorScored [(1:ℝ)] [c7vdoc] := by
    have he : vectorScored [(1:ℝ)] [c7vdoc] = [(c7vdoc, cosineSim [(1:ℝ)] [(1:ℝ)])] := by
      with_unfolding_all rfl
    rw [he]
    exact List.mem_singleton.mpr rfl
  exact ⟨tier_scores_bounded_sort_stable.1 "machine".toList [c7rdoc] c7rdoc 1 hm1,
    tier_scores_bounded_sort_stable.2.1 [(1:ℝ)] [c7vdoc] c7vdoc _ hm2,
    tier_scores_bounded_sort_stable.2.2.1 "machine".toList [c7rdoc] 1,
    tier_scores_bounded_sort_stable.2.2.2 [(1:ℝ)] [c7vdoc] (cosineSim [(1:ℝ)] [(1:ℝ)])⟩

def c7negdoc : Doc := { id := 4, embedding := some [(-1:ℝ)] }

/-- C7 counterexample: the client-side vector tier emits a scored document
whose similarity is negative (cosine similarity -1), so the claimed [0, 1]
bound on every ScoredDocument fails. -/
theorem vector_tier_score_below_zero :
    (c7negdoc, cosineSim [(1:ℝ)] [(-1:ℝ)]) ∈ vectorScored [(1:ℝ)] [c7negdoc] ∧
    cosineSim [(1:ℝ)] [(-1:ℝ)] < 0 := by
  constructor
  · have he : vectorScored [(1:ℝ)] [c7negdoc]
        = [(c7negdoc, cosineSim [(1:ℝ)] [(-1:ℝ)])] := by
      with_unfolding_all rfl
    rw [he]
    exact List.mem_singleton.mpr rfl
  · rw [cosineSim_one_negone]
    norm_num

/-- The language tags of language_detector.py. -/
inductive LanguageType where
  | arabicEgyptian
  | arabicFusha
  | english
  | mixed
  | unknown
deriving DecidableEq, Repr

/-- The string values of the LanguageType enumeration. -/
def LanguageType.value : LanguageType → Text
  | .arabicEgyptian => "ar_EG".toList
  | .arabicFusha => "ar".toList
  | .english => "en".toList
  | .mixed => "mixed".toList
  | .unknown => "unknown".toList

/-- The Arabic character ranges counted by the detector. -/
def isArabicChar (c : Char) : Bool :=
  (0x0600 ≤ c.toNat && c.toNat ≤ 0x06FF) || (0x0750 ≤ c.toNat && c.toNat ≤ 0x077F) ||
  (0x08A0 ≤ c.toNat && c.toNat ≤ 0x08FF) || (0xFB50 ≤ c.toNat && c.toNat ≤ 0xFDFF) ||
  (0xFE70 ≤ c.toNat && c.toNat ≤ 0xFEFF)

def isLatinLetter (c : Char) : Bool :=
  ('a' ≤ c && c ≤ 'z') || ('A' ≤ c && c ≤ 'Z')

/-- The word-character class of Python regular expressions, restricted to
the scripts occurring in this code base (Latin letters, digits, the
underscore, and the Arabic ranges above). -/
def isWordChar (c : Char) : Bool :=
  isLatinLetter c || ('0' ≤ c && c ≤ '9') || c = '_' || isArabicChar c

def boundaryOkBefore : Option Char → Bool
  | none => true
  | some p => !isWordChar p

def boundaryOkAfter : Text → Bool
  | [] => true
  | c :: _ => !isWordChar c

/-- re.search of a word-boundary-delimited literal alternative: the word
occurs somewhere in the text with no word character directly before or
after the occurrence. -/
def searchWordFrom (w : Text) : Option Char → Text → Bool
  | prev, [] => boundaryOkBefore prev && w.isEmpty
  | prev, c :: rest =>
    (boundaryOkBefore prev && w.isPrefixOf (c :: rest)
      && boundaryOkAfter ((c :: rest).drop w.length))
    || searchWordFrom w (some c) rest

/-- One dialect-marker pattern: a word-boundary-delimited alternation of
literal words; it matches when any alternative occurs. -/
def patternMatches (alts : List Text) (text : Text) : Bool :=
  alts.any (fun w => searchWordFrom w none text)

def altWords (ws : List String) : List Text := ws.map String.toList

/-- The six Egyptian-dialect marker patterns of the detector. -/
def egyptianPatterns : List (List Text) := [
  altWords ["ازيك", "إزيك", "ازاى", "إزاى", "ايه", "أيه"],
  altWords ["عامل ايه", "عاملين ايه", "عامل ايه ياسطا"],
  altWords ["تمام", "ماشي", "خلاص", "بقا", "يا عم", "يا باشا"],
  altWords ["معلش", "يا ريت", "يعني", "اصل", "برضه", "علشان"],
  altWords ["بص", "اسمع", "قول", "روح", "خش", "جرب", "شوف"],
  altWords ["فين", "امتى", "ليه", "ازاي", "كام", "قد ايه"]]

/-- The Egyptian education vocabulary of the detector. -/
def egyptianEducationTerms : List Text :=
  altWords ["كليه", "جامعه", "دكتور", "مدرسه", "معهد",
    "توجيهي", "ثانويه", "ابتدائي", "اعدادي",
    "محاضره", "امتحان", "منهج", "ماده", "سكاشن"]

/-- AdvancedLanguageDetector._calculate_egyptian_score: 0.7 times the
fraction of matching dialect patterns plus 0.3 times the fraction of
whitespace-delimited words that are education terms. -/
def calculateEgyptianScore (text : Text) : ℚ :=
  if text = [] then 0
  else
    let patternScore : ℚ :=
      ((egyptianPatterns.filter (fun p => patternMatches p text)).length : ℚ)
        / (egyptianPatterns.length : ℚ)
    let words := pySplit text
    let educationScore : ℚ :=
      ((words.filter (fun w => w ∈ egyptianEducationTerms)).length : ℚ)
        / ((max words.length 1 : Nat) : ℚ)
    patternScore * 0.7 + educationScore * 0.3

/-- AdvancedLanguageDetector.detect_with_confidence. -/
def detectWithConfidence (text : Text) : LanguageType × ℚ :=
  if text = [] then (.unknown, 0)
  else
    let textLower := pyStrip (text.map lowerChar)
    if textLower ∈ ["hi", "ok", "yes", "no", "hey", "hello"].map String.toList then
      (.english, 1)
    else
      let egyptianScore := calculateEgyptianScore textLower
      if (0.6 : ℚ) < egyptianScore then (.arabicEgyptian, egyptianScore)
      else
        let arabicChars := (text.filter isArabicChar).length
        let englishChars := (text.filter isLatinLetter).length
        let otherChars :=
          (text.filter (fun c => !isWordChar c && !isSpaceChar c)).length
        let totalChars := max (arabicChars + englishChars + otherChars) 1
        let arabicRatio : ℚ := (arabicChars : ℚ) / (totalChars : ℚ)
        let englishRatio : ℚ := (englishChars : ℚ) / (totalChars : ℚ)
        if (0.5 : ℚ) < arabicRatio then
          if (0.3 : ℚ) < egyptianScore then
            (.arabicEgyptian, (arabicRatio + egyptianScore) / 2)
          else (.arabicFusha, arabicRatio)
        else if (0.5 : ℚ) < englishRatio then (.english, englishRatio)
        else if (0.2 : ℚ) < arabicRatio ∧ (0.2 : ℚ) < englishRatio then
          (.mixed, (arabicRatio + englishRatio) / 2)
        else if arabicChars < englishChars then (.english, 0.4)
        else if englishChars < arabicChars then (.arabicEgyptian, 0.4)
        else (.unknown, 0.5)

theorem space_char_cases {c : Char} (h : isSpaceChar c = true) :
    c = ' ' ∨ c = '\t' ∨ c = '\n' ∨ c = '\r' ∨ c = '\x0b' ∨ c = '\x0c' := by
  simp [isSpaceChar] at h
  tauto

theorem lowerChar_of_space {c : Char} (h : isSpaceChar c = true) : lowerChar c = c := by
  rcases space_char_cases h with rfl | rfl | rfl | rfl | rfl | rfl <;> decide

theorem space_not_arabic {c : Char} (h : isSpaceChar c = true) : isArabicChar c = false := by
  rcases space_char_cases h with rfl | rfl | rfl | rfl | rfl | rfl <;> decide

theorem space_not_latin {c : Char} (h : isSpaceChar c = true) : isLatinLetter c = false := by
  rcases space_char_cases h with rfl | rfl | rfl | rfl | rfl | rfl <;> decide

/-- C9 amended: the detector returns the unknown tag with confidence 0 for
the empty text, but for whitespace-only non-empty text it returns the
unknown tag with confidence 0.5 (the all-zero character counts fall
through every ratio branch to the final equal-counts case). -/
theorem detect_empty_or_whitespace (text : Text)
    (hws : ∀ c ∈ text, isSpaceChar c = true) :
    (text = [] → detectWithConfidence text = (.unknown, 0)) ∧
    (text ≠ [] → detectWithConfidence text = (.unknown, 0.5)) := by
  constructor
  · intro h
    subst h
    rfl
  · intro hne
    have hstrip : pyStrip (text.map lowerChar) = [] := by
      unfold pyStrip
      have h1 : (text.map lowerChar).dropWhile isSpaceChar = [] := by
        rw [List.dropWhile_eq_nil_iff]
        intro c hc
        rw [List.mem_map] at hc
        obtain ⟨c0, hc0, rfl⟩ := hc
        rw [lowerChar_of_space (hws c0 hc0)]
        exact hws c0 hc0
      rw [h1]
      rfl
    have hfa : text.filter isArabicChar = [] := by
      rw [List.filter_eq_nil_iff]
      intro c hc
      simp [space_not_arabic (hws c hc)]
    have hfe : text.filter isLatinLetter = [] := by
      rw [List.filter_eq_nil_iff]
      intro c hc
      simp [space_not_latin (hws c hc)]
    have hfo : text.filter (fun c => !isWordChar c && !isSpaceChar c) = [] := by
      rw [List.filter_eq_nil_iff]
      intro c hc
      simp [hws c hc]
    unfold detectWithConfidence
    rw [if_neg hne, hstrip, hfa, hfe, hfo]
    norm_num [calculateEgyptianScore]
    decide

theorem detect_empty_or_whitespace_witness :
    detectWithConfidence [' ', ' '] = (.unknown, 0.5) :=
  (detect_empty_or_whitespace [' ', ' '] (by decide)).2 (by decide)

/-- C9 counterexample: on the single-space text the detector returns
confidence 0.5, not the claimed 0.0. -/
theorem whitespace_detect_half_confidence :
    detectWithConfidence [' '] = (.unknown, 0.5) ∧
    ¬ ((detectWithConfidence [' ']).2 = 0) := by
  have h : detectWithConfidence [' '] = (.unknown, 0.5) := by
    with_unfolding_all rfl
  refine ⟨h, ?_⟩
  rw [h]
  norm_num

/-- LanguageType(value): the enumeration lookup used when a non-auto
preference is given; an unsupported value raises and is swallowed. -/
def languageTypeOfValue (s : Text) : Option LanguageType :=
  if s = "ar_EG".toList then some .arabicEgyptian
  else if s = "ar".toList then some .arabicFusha
  else if s = "en".toList then some .english
  else if s = "mixed".toList then some .mixed
  else if s = "unknown".toList then some .unknown
  else none

/-- ChatService._determine_response_language: an explicit supported
preference wins; otherwise the detected tag when it is one of the three
primary tags, else the Egyptian dialect default. -/
def determineResponseLanguage (detected : LanguageType) (preferred : Text) : LanguageType :=
  match (if preferred ≠ "auto".toList then languageTypeOfValue preferred else none) with
  | some l => l
  | none =>
    if detected = .arabicEgyptian ∨ detected = .arabicFusha ∨ detected = .english then
      detected
    else .arabicEgyptian

/-- A fragment of the roadmap-request patterns: a literal, or a run of
whitespace (star: possibly empty, plus: non-empty). -/
inductive Piece where
  | lit (w : Text)
  | wsStar
  | wsPlus

/-- Match a sequence of pieces at the head of the text.  The whitespace
pieces consume a maximal run; every literal that follows one starts with a
non-whitespace character, so maximal munch coincides with the regular
expression semantics. -/
def matchPiecesAt : List Piece → Text → Bool
  | [], _ => true
  | .lit w :: ps, cs => w.isPrefixOf cs && matchPiecesAt ps (cs.drop w.length)
  | .wsStar :: ps, cs => matchPiecesAt ps (cs.dropWhile isSpaceChar)
  | .wsPlus :: ps, cs =>
    match cs with
    | [] => false
    | c :: rest => isSpaceChar c && matchPiecesAt ps (rest.dropWhile isSpaceChar)

def searchPieces (alt : List Piece) : Text → Bool
  | [] => matchPiecesAt alt []
  | c :: rest => matchPiecesAt alt (c :: rest) || searchPieces alt rest

/-- The roadmap-request trigger alternatives of
ChatService._detect_roadmap_request. -/
def roadmapPatterns : List (List Piece) := [
  [.lit "مسار".toList],
  [.lit "رود".toList, .wsStar, .lit "ماب".toList],
  [.lit "خريطة".toList],
  [.lit "طريق".toList],
  [.lit "ازاي".toList, .wsPlus, .lit "اتعلم".toList],
  [.lit "كيف".toList, .wsPlus, .lit "اتعلم".toList],
  [.lit "عايز".toList, .wsPlus, .lit "اتعلم".toList],
  [.lit "roadmap".toList],
  [.lit "road".toList, .wsStar, .lit "map".toList],
  [.lit "path".toList],
  [.lit "guide".toList],
  [.lit "how".toList, .wsPlus, .lit "to".toList, .wsPlus, .lit "learn".toList],
  [.lit "learning".toList, .wsPlus, .lit "path".toList]]

/-- ChatService._detect_roadmap_request: the lowercased message when any
trigger pattern occurs in it, else nothing. -/
def detectRoadmapRequest (message : Text) : Option Text :=
  let messageLower := message.map lowerChar
  if roadmapPatterns.any (fun p => searchPieces p messageLower) then some messageLower
  else none

/-- ChatService._generate_fallback_response message table (the Egyptian
text is the default for the mixed and unknown tags). -/
def noRoadmapMessage : LanguageType → Text
  | .arabicFusha => "عذراً، لا يوجد رودماب متاح لهذا المجال حالياً.".toList
  | .english => "Sorry, no roadmap available for this field right now.".toList
  | _ => "معلش يا باشا، مفيش رود ماب متاح للمجال ده دلوقتي.".toList

/-- LLMService.generate_response error message table (Egyptian default). -/
def llmErrorMessage : LanguageType → Text
  | .arabicFusha => "عذراً، حدث خطأ.".toList
  | .english => "Sorry, an error occurred.".toList
  | _ => "معلش، فيه مشكلة. حاول تاني.".toList

/-- The foreign-script ranges removed by
LLMService._clean_foreign_characters. -/
def isForbiddenChar (c : Char) : Bool :=
  (0x4E00 ≤ c.toNat && c.toNat ≤ 0x9FFF) || (0x3040 ≤ c.toNat && c.toNat ≤ 0x309F) ||
  (0x30A0 ≤ c.toNat && c.toNat ≤ 0x30FF) || (0xAC00 ≤ c.toNat && c.toNat ≤ 0xD7AF) ||
  (0x0400 ≤ c.toNat && c.toNat ≤ 0x04FF)

def forbiddenWords : List Text :=
  ["然而", "实际", "时间", "讨论", "的", "了", "실제", "시간", "の", "は",
    "или", "и"].map String.toList

def wordReplacements : List (Text × Text) :=
  [("coverage".toList, "".toList), ("however".toList, "لكن".toList),
    ("moreover".toList, "".toList)]

/-- LLMService._clean_foreign_characters: drop foreign-script characters,
delete the forbidden words, apply the word replacements, then collapse
every whitespace run to a single space and strip (the final
newline-collapsing substitution of the code acts on a text that no longer
contains newlines and is the identity). -/
def cleanForeignCharacters (text : Text) : Text :=
  let c1 := text.filter (fun c => !isForbiddenChar c)
  let c2 := forbiddenWords.foldl (fun acc w => replaceAll w [] acc) c1
  let c3 := wordReplacements.foldl (fun acc p => replaceAll p.1 p.2 acc) c2
  joinWithSpace (pySplit c3)

/-- The outcome of one call to the completion collaborator. -/
inductive GenOutcome where
  | ok (raw : Text)
  | rateLimit
  | connectionError
  | timeout
  | otherError

/-- The transient (retryable) error kinds of the tenacity configuration. -/
def GenOutcome.isTransient : GenOutcome → Bool
  | .rateLimit => true
  | .connectionError => true
  | .timeout => true
  | _ => false

def GenOutcome.isFailure : GenOutcome → Bool
  | .ok _ => false
  | _ => true

/-- The body of LLMService.generate_response, reduced to the response text
and confidence (the token count of the dictionary is not modelled): on
success the raw completion is cleaned and grounded against the context
with confidence 0.9; any exception is caught inside the body and yields
the language-appropriate error text with confidence 0.3.  The tenacity
decorator around the body is configured with stop_after_attempt 3 and
exponential backoff 2..10 for the transient kinds, but it re-invokes the
body only when a listed exception escapes it; the catch-all inside the
body means no exception ever escapes, so the first attempt always returns
and no retry occurs. -/
def generateResponseBody (outcome : GenOutcome) (context : List CtxItem)
    (userLang : LanguageType) : Text × ℚ :=
  match outcome with
  | .ok raw => (validateUrlsAgainstContext (cleanForeignCharacters raw) context, 0.9)
  | _ => (llmErrorMessage userLang, 0.3)

/-- A stored conversation turn. -/
structure Turn where
  role : Text
  content : Text
  language : Text

/-- LLMService.contextualize_query, with the collaborator reply passed in
(none models a collaborator failure, which is caught and yields the
original message).  The second component records whether the completion
collaborator was invoked. -/
def contextualizeQuery (llmResult : Option Text) (message : Text)
    (history : List Turn) : Text × Bool :=
  if history.isEmpty then (message, false)
  else
    match llmResult with
    | none => (message, true)
    | some r => ((pyStrip r).filter (fun c => !(c = '"') && !(c = '\'')), true)

/-- ChatService._format_roadmap_context: each retrieved roadmap becomes a
four-field question/answer record embedding the description and URL. -/
def formatRoadmapContext (roadmaps : List (Doc × ℝ)) : List CtxItem :=
  roadmaps.map (fun p => [
    "ما هو مسار ".toList ++ p.1.title ++ "؟".toList,
    p.1.description ++ "\n\nالرابط: ".toList ++ p.1.url,
    "What is the ".toList ++ p.1.title ++ " roadmap?".toList,
    p.1.description ++ "\n\nLink: ".toList ++ p.1.url])

/-- The string-valued fields of a stored row, as seen by the grounding
validator (non-string fields of the row are skipped by the validator). -/
def docCtxFields (d : Doc) : CtxItem :=
  [d.title, d.description, d.category, d.url, d.slug,
    d.question_ar, d.question_en, d.answer_ar, d.answer_en]

/-- The collaborators of one ChatService.process_message invocation. -/
structure ChatEnv where
  search : SearchEnv
  history : List Turn
  contextualizeLLM : Option Text
  genOutcome : GenOutcome

/-- The contextualization step of process_message: the completion
collaborator is consulted exactly when the fetched history is
non-empty. -/
def refinedMessage (env : ChatEnv) (message : Text) : Text × Bool :=
  if env.history.isEmpty then (message, false)
  else contextualizeQuery env.contextualizeLLM message env.history

/-- The observable outcome of one process_message invocation: the response
fields together with the effects (which collaborators were invoked and
which turns were appended to the store). -/
structure ChatResult where
  response : Text
  userLanguage : LanguageType
  detectedLanguage : LanguageType
  languageConfidence : ℚ
  confidence : ℚ
  contextualizeCalled : Bool
  generateCalled : Bool
  persisted : List Turn

/-- ChatService.process_message: detect the language, resolve the response
language, contextualize against the history, route by roadmap intent,
retrieve, generate, and persist the two turns (the roadmap-intent branch
with an empty retrieval short-circuits to the fallback response without
generating or persisting). -/
noncomputable def processMessage (env : ChatEnv) (message : Text)
    (preferred : Text) : ChatResult :=
  let det := detectWithConfidence message
  let userLang := determineResponseLanguage det.1 preferred
  let rp := refinedMessage env message
  let refined := rp.1
  match detectRoadmapRequest refined with
  | some _ =>
    let roadmaps := searchRoadmaps env.search refined 3 true
    if roadmaps.isEmpty then
      { response := noRoadmapMessage userLang
        userLanguage := userLang
        detectedLanguage := det.1
        languageConfidence := det.2
        confidence := 0.8
        contextualizeCalled := rp.2
        generateCalled := false
        persisted := [] }
    else
      let context := formatRoadmapContext roadmaps
      let gen := generateResponseBody env.genOutcome context userLang
      { response := gen.1
        userLanguage := userLang
        detectedLanguage := det.1
        languageConfidence := det.2
        confidence := gen.2
        contextualizeCalled := rp.2
        generateCalled := true
        persisted := [⟨"user".toList, message, userLang.value⟩,
          ⟨"assistant".toList, gen.1, userLang.value⟩] }
  | none =>
    let faqs := searchFaqs env.search refined
    let context := faqs.map (fun p => docCtxFields p.1)
    let gen := generateResponseBody env.genOutcome context userLang
    { response := gen.1
      userLanguage := userLang
      detectedLanguage := det.1
      languageConfidence := det.2
      confidence := gen.2
      contextualizeCalled := rp.2
      generateCalled := true
      persisted := [⟨"user".toList, message, userLang.value⟩,
        ⟨"assistant".toList, gen.1, userLang.value⟩] }

theorem refinedMessage_called_iff (env : ChatEnv) (message : Text) :
    (refinedMessage env message).2 = !env.history.isEmpty := by
  unfold refinedMessage contextualizeQuery
  by_cases hh : env.history.isEmpty
  · simp [hh]
  · cases env.contextualizeLLM <;> simp [hh]

/-- C8 amended: a roadmap-intent request whose retrieval returns zero
guides is answered with the fixed no-roadmap text of the resolved language
and confidence exactly 0.8; the GENERATE stage is skipped and nothing is
persisted; the completion collaborator is not invoked for answer
generation, but it is still invoked for query contextualization exactly
when the conversation history is non-empty. -/
theorem roadmap_empty_retrieval_fallback (env : ChatEnv) (message preferred : Text)
    (hrm : (detectRoadmapRequest (refinedMessage env message).1).isSome = true)
    (hempty : searchRoadmaps env.search (refinedMessage env message).1 3 true = []) :
    (processMessage env message preferred).response
        = noRoadmapMessage
            (determineResponseLanguage (detectWithConfidence message).1 preferred) ∧
    (processMessage env message preferred).confidence = 0.8 ∧
    (processMessage env message preferred).generateCalled = false ∧
    (processMessage env message preferred).persisted = [] ∧
    (processMessage env message preferred).contextualizeCalled
        = !env.history.isEmpty := by
  obtain ⟨q, hq⟩ := Option.isSome_iff_exists.mp hrm
  unfold processMessage
  simp only [hq, hempty]
  simp [refinedMessage_called_iff]

def c8envA : ChatEnv := {
  search := c4env
  history := []
  contextualizeLLM := none
  genOutcome := .otherError }

theorem roadmap_empty_retrieval_fallback_witness :
    (processMessage c8envA "roadmap".toList "auto".toList).response
        = noRoadmapMessage
            (determineResponseLanguage
              (detectWithConfidence "roadmap".toList).1 "auto".toList) ∧
    (processMessage c8envA "roadmap".toList "auto".toList).confidence = 0.8 ∧
    (processMessage c8envA "roadmap".toList "auto".toList).generateCalled = false ∧
    (processMessage c8envA "roadmap".toList "auto".toList).persisted = [] ∧
    (processMessage c8envA "roadmap".toList "auto".toList).contextualizeCalled
        = !c8envA.history.isEmpty :=
  roadmap_empty_retrieval_fallback c8envA "roadmap".toList "auto".toList
    (by with_unfolding_all rfl) (by with_unfolding_all rfl)

def c8envB : ChatEnv := {
  search := c4env
  history := [⟨"user".toList, "hi".toList, "en".toList⟩]
  contextualizeLLM := none
  genOutcome := .otherError }

/-- C8 counterexample: with a non-empty conversation history, a
roadmap-intent request with zero retrieved guides still invokes the
completion collaborator — for query contextualization — even though the
no-roadmap fallback is returned, so the collaborator is not never-invoked
for that request. -/
theorem no_roadmap_fallback_still_contextualizes :
    (processMessage c8envB "roadmap".toList "auto".toList).confidence = 0.8 ∧
    (processMessage c8envB "roadmap".toList "auto".toList).generateCalled = false ∧
    (processMessage c8envB "roadmap".toList "auto".toList).contextualizeCalled = true := by
  refine ⟨?_, ?_, ?_⟩ <;> with_unfolding_all rfl

/-- C3 amended: any completion failure inside generate_response (transient
or terminal) is caught by the catch-all handler of the body on the first
attempt (the configured 3-attempt exponential-backoff retry never re-runs,
since no exception escapes the body), the pipeline produces the
language-appropriate generic error text with confidence exactly 0.3 (not
0.0), and the PERSIST stage still runs, appending the user turn and the
error-text assistant turn.  The hypothesis is exactly that the request
reaches the GENERATE stage, i.e. that it is not a roadmap-intent request
with an empty retrieval (the only path of process_message that
short-circuits before generation): both the FAQ route and the
roadmap route with retrieved guides are covered. -/
theorem generation_failure_error_response (env : ChatEnv) (message preferred : Text)
    (hfail : env.genOutcome.isFailure = true)
    (hreach : detectRoadmapRequest (refinedMessage env message).1 = none ∨
      searchRoadmaps env.search (refinedMessage env message).1 3 true ≠ []) :
    (processMessage env message preferred).response
        = llmErrorMessage
            (determineResponseLanguage (detectWithConfidence message).1 preferred) ∧
    (processMessage env message preferred).confidence = 0.3 ∧
    (processMessage env message preferred).generateCalled = true ∧
    (processMessage env message preferred).persisted
        = [⟨"user".toList, message,
            (determineResponseLanguage (detectWithConfidence message).1 preferred).value⟩,
           ⟨"assistant".toList,
            llmErrorMessage
              (determineResponseLanguage (detectWithConfidence message).1 preferred),
            (determineResponseLanguage (detectWithConfidence message).1 preferred).value⟩] := by
  have hgen : ∀ (ctx : List CtxItem) (lang : LanguageType),
      generateResponseBody env.genOutcome ctx lang = (llmErrorMessage lang, 0.3) := by
    intro ctx lang
    cases ho : env.genOutcome with
    | ok raw =>
      rw [ho] at hfail
      simp [GenOutcome.isFailure] at hfail
    | rateLimit => rfl
    | connectionError => rfl
    | timeout => rfl
    | otherError => rfl
  cases hd : detectRoadmapRequest (refinedMessage env message).1 with
  | none =>
    unfold processMessage
    simp only [hd]
    simp [hgen]
  | some q =>
    have hnon : searchRoadmaps env.search (refinedMessage env message).1 3 true ≠ [] := by
      rcases hreach with hfaq | hnon
      · rw [hd] at hfaq
        exact absurd hfaq (by simp)
      · exact hnon
    have hne : (searchRoadmaps env.search (refinedMessage env message).1 3 true).isEmpty
        = false := by
      cases hi : (searchRoadmaps env.search (refinedMessage env message).1 3 true).isEmpty
      · rfl
      · exact absurd (List.isEmpty_iff.mp hi) hnon
    unfold processMessage
    simp only [hd]
    simp [hne, hgen]

def c3env : ChatEnv := {
  search := c4env
  history := []
  contextualizeLLM := none
  genOutcome := .rateLimit }

theorem generation_failure_error_response_witness :
    (processMessage c3env "hello".toList "en".toList).response
        = llmErrorMessage
            (determineResponseLanguage (detectWithConfidence "hello".toList).1 "en".toList) ∧
    (processMessage c3env "hello".toList "en".toList).confidence = 0.3 ∧
    (processMessage c3env "hello".toList "en".toList).generateCalled = true ∧
    (processMessage c3env "hello".toList "en".toList).persisted
        = [⟨"user".toList, "hello".toList,
            (determineResponseLanguage
              (detectWithConfidence "hello".toList).1 "en".toList).value⟩,
           ⟨"assistant".toList,
            llmErrorMessage
              (determineResponseLanguage (detectWithConfidence "hello".toList).1 "en".toList),
            (determineResponseLanguage
              (detectWithConfidence "hello".toList).1 "en".toList).value⟩] :=
  generation_failure_error_response c3env "hello".toList "en".toList rfl
    (Or.inl (by with_unfolding_all rfl))

/-- C3 counterexample: on a transient rate-limit failure the pipeline
returns confidence 0.3 (not the claimed exactly 0.0) and the PERSIST stage
still runs (the appended turns are not empty). -/
theorem transient_failure_persists_nonzero_confidence :
    GenOutcome.isTransient c3env.genOutcome = true ∧
    (processMessage c3env "hello".toList "en".toList).confidence = 0.3 ∧
    ¬ ((processMessage c3env "hello".toList "en".toList).confidence = 0) ∧
    (processMessage c3env "hello".toList "en".toList).persisted ≠ [] := by
  have h : (processMessage c3env "hello".toList "en".toList).confidence = 0.3 := by
    with_unfolding_all rfl
  have hp : (processMessage c3env "hello".toList "en".toList).persisted
      = [⟨"user".toList, "hello".toList, "en".toList⟩,
         ⟨"assistant".toList, llmErrorMessage .english, "en".toList⟩] := by
    with_unfolding_all rfl
  refine ⟨rfl, h, ?_, ?_⟩
  · rw [h]
    norm_num
  · rw [hp]
    simp
